import Mathlib

/-!
# Stat-prefix builder of `pilot/pkg/networking/telemetry/telemetry.go`

A shallow embedding of the telemetry helpers (`BuildStatPrefix`,
`BuildInboundStatPrefix`, `shortHostName`, `TraceOperation`,
`FilterChainMetadata.ShortHostname`) together with the part of the Go
standard library they call (`strings.ReplaceAll`, `strconv.Itoa`).

Go strings are modelled as lists of characters.  All five placeholder tokens
are ASCII, so replacing them in a byte string and in the corresponding
character string gives the same result.
-/

set_option linter.dupNamespace false

namespace Telemetry

/-- A Go `string`. -/
abbrev Str := List Char

/-! ## Go standard library -/

/-- The scanning loop of `strings.ReplaceAll` for a non-empty `old`: the text is
read left to right; `skip` counts the characters of the occurrence found last
that still have to be passed over (occurrences never overlap). -/
def replaceScan (old new : Str) : Nat → Str → Str
  | _, [] => []
  | skip + 1, _ :: cs => replaceScan old new skip cs
  | 0, c :: cs =>
    if old.isPrefixOf (c :: cs) then new ++ replaceScan old new (old.length - 1) cs
    else c :: replaceScan old new 0 cs

/-- The function `strings.ReplaceAll(s, old, new)`: every non-overlapping occurrence of
`old` in `s`, found leftmost first, is replaced by `new`.  For an empty `old`
the replacement is inserted before every character and at the end. -/
def ReplaceAll (s old new : Str) : Str :=
  match old with
  | [] => new ++ s.foldr (fun c acc => c :: (new ++ acc)) []
  | _ :: _ => replaceScan old new 0 s

/-- The function `strings.Contains(s, substr)`. -/
def Contains : Str → Str → Bool
  | [], substr => substr.isPrefixOf []
  | c :: cs, substr => substr.isPrefixOf (c :: cs) || Contains cs substr

/-- Number of positions of `s` at which `substr` starts. -/
def occurrences (substr : Str) : Str → Nat
  | [] => 0
  | c :: cs => (if substr.isPrefixOf (c :: cs) then 1 else 0) + occurrences substr cs

/-- The function `strconv.Itoa(i)`: the base-10 text of `i`, with a leading minus sign for
a negative number. -/
def Itoa : Int → Str
  | Int.ofNat n => Nat.toDigits 10 n
  | Int.negSucc n => '-' :: Nat.toDigits 10 (n + 1)

/-- The number a text of decimal digits denotes, read left to right in base 10. -/
def decimalValue (s : Str) : Nat :=
  s.foldl (fun acc c => 10 * acc + (c.toNat - 48)) 0

/-- The conversion `int(port)` of a `uint32`.  The Go type `int` has the width of the
target, `intSize` bits (32 or 64, `strconv.IntSize`): the value is first reduced to 32 bits
(the range of the argument type) and then read as a signed integer of `intSize` bits, so
that on a 32-bit target a value from `2 ^ 31` on wraps to a negative number. -/
def intOfUint32 (intSize : Nat) (port : Nat) : Int :=
  let m : Nat := port % 2 ^ 32 % 2 ^ intSize
  if m < 2 ^ (intSize - 1) then (m : Int) else (m : Int) - 2 ^ intSize

/-! ## Collaborating packages -/

/-- Modelled from the spec: the registry-type tag of package `serviceregistry/provider`
(its declaration is not part of the excerpt).  The spec describes a closed tag that
identifies the registry, Kubernetes or some other registry. -/
inductive ProviderID where
  | Kubernetes
  | Other (tag : Nat)
  deriving DecidableEq, Repr

/-- Modelled from the spec: `model.Port`, which carries the port number (a Go `int`) and the
port name. -/
structure Port where
  Name : Str
  Port : Int
  deriving DecidableEq, Repr

/-- Modelled from the spec: `model.ServiceAttributes`, of which the registry tag, the
name and the namespace are consumed here. -/
structure ServiceAttributes where
  ServiceRegistry : ProviderID
  Name : Str
  Namespace : Str
  deriving DecidableEq, Repr

/-- Modelled from the spec: `host.Name`, a dotted-name string type. -/
structure HostName where
  name : Str
  deriving DecidableEq, Repr

/-- Modelled from the spec: the string conversion `host.Name.String`. -/
def HostName.String (n : HostName) : Str := n.name

/-- Modelled from the spec: `util.DomainName(host, port)`, which is not part of the excerpt.
The spec describes it as combining host and port into a canonical domain string,
`host:port` or the IPv6-bracketed equivalent; a host that contains a colon is taken to
be an IPv6 literal and is put in brackets. -/
def DomainName (host : Str) (port : Int) : Str :=
  if ':' ∈ host then "[".toList ++ host ++ "]:".toList ++ Itoa port
  else host ++ ":".toList ++ Itoa port

/-! ## telemetry.go -/

def serviceStatPattern : Str := "%SERVICE%".toList
def serviceFQDNStatPattern : Str := "%SERVICE_FQDN%".toList
def servicePortStatPattern : Str := "%SERVICE_PORT%".toList
def servicePortNameStatPattern : Str := "%SERVICE_PORT_NAME%".toList
def subsetNameStatPattern : Str := "%SUBSET_NAME%".toList

/-- The function `shortHostName`: the name built from the attributes for a Kubernetes host, the
host itself otherwise.  `attributes` is a pointer; dereferencing `nil` fails. -/
def shortHostName (host : Str) (attributes : Option ServiceAttributes) : Option Str :=
  match attributes with
  | none => none
  | some a =>
    if a.ServiceRegistry = ProviderID.Kubernetes then some (a.Name ++ ".".toList ++ a.Namespace)
    else some host

/-- The function `BuildStatPrefix`.  `port` and `attributes` are pointers; the result is `none`
when the Go code would fail on a `nil` dereference. -/
def BuildStatPrefix (statPattern host subset : Str) (port : Option Port)
    (attributes : Option ServiceAttributes) : Option Str :=
  match shortHostName host attributes with
  | none => none
  | some short =>
    let p1 := ReplaceAll statPattern serviceStatPattern short
    let p2 := ReplaceAll p1 serviceFQDNStatPattern host
    let p3 := ReplaceAll p2 subsetNameStatPattern subset
    match port with
    | none => none
    | some p =>
      let p4 := ReplaceAll p3 servicePortStatPattern (Itoa p.Port)
      let p5 := ReplaceAll p4 servicePortNameStatPattern p.Name
      some p5

/-- The type `FilterChainMetadata`. -/
structure FilterChainMetadata where
  InstanceHostname : HostName
  KubernetesServiceNamespace : Str
  KubernetesServiceName : Str
  deriving DecidableEq, Repr

/-- The method `FilterChainMetadata.ShortHostname`. -/
def FilterChainMetadata.ShortHostname (tm : FilterChainMetadata) : Str :=
  if tm.KubernetesServiceName ≠ [] then
    tm.KubernetesServiceName ++ ".".toList ++ tm.KubernetesServiceNamespace
  else tm.InstanceHostname.String

/-- The function `BuildInboundStatPrefix`; `port` is a `uint32`, and `intSize` is the width
of the type `int` on the target the code is compiled for. -/
def BuildInboundStatPrefix (intSize : Nat) (statPattern : Str) (tm : FilterChainMetadata)
    (subset : Str) (port : Nat) (portName : Str) : Str :=
  let p1 := ReplaceAll statPattern serviceStatPattern tm.ShortHostname
  let p2 := ReplaceAll p1 serviceFQDNStatPattern tm.InstanceHostname.String
  let p3 := ReplaceAll p2 subsetNameStatPattern subset
  let p4 := ReplaceAll p3 servicePortStatPattern (Itoa (intOfUint32 intSize port))
  let p5 := ReplaceAll p4 servicePortNameStatPattern portName
  p5

/-- The function `TraceOperation`, with the collaborator `util.DomainName` as a parameter. -/
def TraceOperation (domainName : Str → Int → Str) (host : Str) (port : Int) : Str :=
  domainName host port ++ "/*".toList

/-! ## Tokens, replacement orders and templates -/

/-- The five placeholder tokens. -/
inductive Token where
  | SERVICE
  | SERVICE_FQDN
  | SUBSET_NAME
  | SERVICE_PORT
  | SERVICE_PORT_NAME
  deriving DecidableEq, Repr

/-- The literal text of a token, as declared in the `var` block of telemetry.go. -/
def Token.text : Token → Str
  | .SERVICE => serviceStatPattern
  | .SERVICE_FQDN => serviceFQDNStatPattern
  | .SUBSET_NAME => subsetNameStatPattern
  | .SERVICE_PORT => servicePortStatPattern
  | .SERVICE_PORT_NAME => servicePortNameStatPattern

/-- The order in which `BuildStatPrefix` replaces the tokens. -/
def sourceOrder : List Token :=
  [.SERVICE, .SERVICE_FQDN, .SUBSET_NAME, .SERVICE_PORT, .SERVICE_PORT_NAME]

/-- The short name that replaces `%SERVICE%`, for non-nil attributes. -/
def shortName (host : Str) (a : ServiceAttributes) : Str :=
  if a.ServiceRegistry = ProviderID.Kubernetes then a.Name ++ ".".toList ++ a.Namespace
  else host

/-- The value that replaces each token (the mapping of section 4.1 of the spec). -/
def tokenValue (host subset : Str) (port : Port) (a : ServiceAttributes) : Token → Str
  | .SERVICE => shortName host a
  | .SERVICE_FQDN => host
  | .SUBSET_NAME => subset
  | .SERVICE_PORT => Itoa port.Port
  | .SERVICE_PORT_NAME => port.Name

/-- The replacements of the tokens listed in `order`, applied to `s` one after the other, each
replacing all occurrences of its token. -/
def applyOrder (val : Token → Str) (order : List Token) (s : Str) : Str :=
  order.foldl (fun acc t => ReplaceAll acc t.text (val t)) s

/-- No token occurs in `s` as a substring. -/
def tokenFree (s : Str) : Prop := ∀ t : Token, ¬ t.text <:+: s

instance (s : Str) : Decidable (tokenFree s) :=
  decidable_of_iff (∀ t ∈ sourceOrder, ¬ Token.text t <:+: s)
    ⟨fun h t => h t (by cases t <;> simp [sourceOrder]), fun h t _ => h t⟩

/-- A piece of a template: one literal character or one token occurrence. -/
inductive Seg where
  | lit (c : Char)
  | tok (t : Token)
  deriving DecidableEq, Repr

/-- The literal characters of a text, as template pieces. -/
def lits (s : Str) : List Seg := s.map Seg.lit

/-- The pattern text of a template. -/
def render : List Seg → Str
  | [] => []
  | .lit c :: r => c :: render r
  | .tok t :: r => t.text ++ render r

/-- The template in which the occurrences of token `t` have been replaced by the text `v`. -/
def substTok (t : Token) (v : Str) : List Seg → List Seg
  | [] => []
  | .lit c :: r => .lit c :: substTok t v r
  | .tok u :: r => if u = t then lits v ++ substTok t v r else .tok u :: substTok t v r

/-- The simultaneous substitution: every token occurrence of the template is replaced by
its value, in one pass; literal text is kept. -/
def substAll (val : Token → Str) : List Seg → Str
  | [] => []
  | .lit c :: r => c :: substAll val r
  | .tok t :: r => val t ++ substAll val r

/-- The next piece, if any, is a literal character other than `S`. -/
def delimited : List Seg → Bool
  | [] => true
  | .lit c :: _ => c != 'S'
  | .tok _ :: _ => false

/-- A separated template: no literal character is `%`, and every token occurrence is
followed by the end of the template or by a literal character other than `S` (the
character every token body starts with). -/
def separated : List Seg → Bool
  | [] => true
  | .lit c :: r => c != '%' && separated r
  | .tok _ :: r => delimited r && separated r

/-- The text has no percent sign. -/
def percentFree (s : Str) : Bool := !s.contains '%'

/-! ## The replacement contract in the words of the spec -/

/-- Spec wording of one replacement step: `r` is `s` with all occurrences of `old` replaced
by `new`, literally, the occurrences taken leftmost first and not overlapping.  Either `old`
does not occur in `s` and `r = s`, or `s = x ++ old ++ y` where this occurrence is the
leftmost one (none starts inside `x`), and the rest `y` is treated the same way. -/
inductive ReplacedAll (old new : Str) : Str → Str → Prop where
  | absent (s : Str) : ¬ old <:+: s → ReplacedAll old new s s
  | first (x y r : Str) : ¬ old <:+: x ++ old.dropLast → ReplacedAll old new y r →
      ReplacedAll old new (x ++ old ++ y) (x ++ new ++ r)

/-- Spec wording of section 4.1: `r` is obtained from the pattern by the five replacements
in the fixed order SERVICE, SERVICE_FQDN, SUBSET_NAME, SERVICE_PORT, SERVICE_PORT_NAME. -/
def SpecStatPrefix (pattern host subset : Str) (port : Port) (a : ServiceAttributes)
    (r : Str) : Prop :=
  ∃ p1 p2 p3 p4 : Str,
    ReplacedAll "%SERVICE%".toList
      (if a.ServiceRegistry = ProviderID.Kubernetes then a.Name ++ ".".toList ++ a.Namespace
        else host) pattern p1 ∧
    ReplacedAll "%SERVICE_FQDN%".toList host p1 p2 ∧
    ReplacedAll "%SUBSET_NAME%".toList subset p2 p3 ∧
    ReplacedAll "%SERVICE_PORT%".toList (Itoa port.Port) p3 p4 ∧
    ReplacedAll "%SERVICE_PORT_NAME%".toList port.Name p4 r

/-! ## Lemmas on `strings.ReplaceAll` -/

theorem contains_iff_substring (s sub : Str) : Contains s sub = true ↔ sub <:+: s := by
  induction s with
  | nil =>
    cases sub <;> simp [Contains, List.isPrefixOf]
  | cons c cs ih =>
    rw [Contains, Bool.or_eq_true, ih, List.isPrefixOf_iff_prefix, List.infix_cons_iff]

theorem contains_cons_false {c : Char} {cs sub : Str} (h : Contains (c :: cs) sub = false) :
    sub.isPrefixOf (c :: cs) = false ∧ Contains cs sub = false := by
  simpa [Contains] using h

theorem replaceScan_of_not_contains (old new : Str) :
    ∀ s : Str, Contains s old = false → replaceScan old new 0 s = s
  | [], _ => rfl
  | c :: cs, h => by
    obtain ⟨h1, h2⟩ := contains_cons_false h
    rw [replaceScan, if_neg (by simp [h1]), replaceScan_of_not_contains old new cs h2]

theorem replaceAll_of_not_contains (s old new : Str) (h : Contains s old = false) :
    ReplaceAll s old new = s := by
  cases old with
  | nil => cases s <;> simp [Contains] at h
  | cons o os => exact replaceScan_of_not_contains _ _ s h

theorem replaceScan_skip (old new : Str) :
    ∀ (xs rest : Str), replaceScan old new xs.length (xs ++ rest) = replaceScan old new 0 rest
  | [], rest => rfl
  | _ :: xs, rest => by
    simp only [List.length_cons, List.cons_append, replaceScan]
    exact replaceScan_skip old new xs rest

theorem replaceScan_match (o : Char) (os new rest : Str) :
    replaceScan (o :: os) new 0 ((o :: os) ++ rest) = new ++ replaceScan (o :: os) new 0 rest := by
  have hp : (o :: os).isPrefixOf (o :: (os ++ rest)) = true := by
    rw [List.isPrefixOf_iff_prefix]; exact List.prefix_append (o :: os) rest
  rw [List.cons_append, replaceScan, if_pos hp]
  simp only [List.length_cons, Nat.add_sub_cancel]
  rw [replaceScan_skip]

theorem not_contains_iff (s sub : Str) : Contains s sub = false ↔ ¬ sub <:+: s := by
  rw [← contains_iff_substring, Bool.not_eq_true]

theorem replaceAll_of_absent (s old new : Str) (h : ¬ old <:+: s) :
    ReplaceAll s old new = s :=
  replaceAll_of_not_contains s old new ((not_contains_iff s old).2 h)

theorem replaceAll_cons (o : Char) (os s new : Str) :
    ReplaceAll s (o :: os) new = replaceScan (o :: os) new 0 s := rfl

/-- The leftmost occurrence is the one replaced first. -/
theorem replaceScan_first (o : Char) (os new y : Str) :
    ∀ x : Str, ¬ (o :: os) <:+: x ++ (o :: os).dropLast →
      replaceScan (o :: os) new 0 (x ++ (o :: os) ++ y)
        = x ++ new ++ replaceScan (o :: os) new 0 y
  | [], _ => by simpa using replaceScan_match o os new y
  | c :: x, h => by
    have hsplit : (o :: os) = (o :: os).dropLast ++ [(o :: os).getLast (by simp)] :=
      (List.dropLast_append_getLast (by simp)).symm
    have hnp : ¬ (o :: os).isPrefixOf (c :: (x ++ (o :: os) ++ y)) = true := by
      rw [List.isPrefixOf_iff_prefix]
      intro hp
      apply h
      have h2 : (c :: x ++ (o :: os).dropLast) <+: c :: (x ++ (o :: os) ++ y) := by
        refine ⟨[(o :: os).getLast (by simp)] ++ y, ?_⟩
        conv_rhs => rw [hsplit]
        simp
      have hlen : (o :: os).length ≤ (c :: x ++ (o :: os).dropLast).length := by
        simp only [List.length_cons, List.cons_append, List.length_append, List.length_dropLast,
          Nat.add_sub_cancel]
        omega
      exact (List.prefix_of_prefix_length_le hp h2 hlen).isInfix
    have hrest : ¬ (o :: os) <:+: x ++ (o :: os).dropLast := by
      intro hi
      apply h
      rw [List.cons_append, List.infix_cons_iff]
      exact Or.inr hi
    rw [List.cons_append, List.cons_append, replaceScan, if_neg hnp,
      replaceScan_first o os new y x hrest]
    rfl

theorem replacedAll_cons (o : Char) (os new : Str) (c : Char) (cs r : Str)
    (hr : ReplacedAll (o :: os) new cs r) (hp : ¬ (o :: os) <+: c :: cs) :
    ReplacedAll (o :: os) new (c :: cs) (c :: r) := by
  cases hr with
  | absent _ hn =>
    refine ReplacedAll.absent _ ?_
    rw [List.infix_cons_iff]
    exact fun h => h.elim hp hn
  | first x y r hx hy =>
    have := ReplacedAll.first (c :: x) y r (fun hi => by
      rw [List.cons_append, List.infix_cons_iff] at hi
      rcases hi with hi | hi
      · apply hp
        have hsplit : (o :: os) = (o :: os).dropLast ++ [(o :: os).getLast (by simp)] :=
          (List.dropLast_append_getLast (by simp)).symm
        refine hi.trans ⟨[(o :: os).getLast (by simp)] ++ y, ?_⟩
        conv_rhs => rw [hsplit]
        simp
      · exact hx hi) hy
    simpa using this

/-- The function `ReplaceAll` meets the spec wording. -/
theorem replacedAll_replaceAll (o : Char) (os new : Str) :
    ∀ s : Str, ReplacedAll (o :: os) new s (ReplaceAll s (o :: os) new) := by
  have main : ∀ (n : Nat) (s : Str), s.length ≤ n →
      ReplacedAll (o :: os) new s (ReplaceAll s (o :: os) new) := by
    intro n
    induction n with
    | zero =>
      intro s hs
      have : s = [] := List.length_eq_zero.1 (Nat.le_zero.1 hs)
      subst this
      exact ReplacedAll.absent _ (by simp)
    | succ n ih =>
      intro s hs
      cases s with
      | nil => exact ReplacedAll.absent _ (by simp)
      | cons c cs =>
        have hcs : cs.length ≤ n := by simpa using hs
        by_cases hp : (o :: os) <+: c :: cs
        · obtain ⟨y, hy⟩ := hp
          have hlen : y.length ≤ n := by
            have h1 : ((o :: os) ++ y).length = (c :: cs).length := by rw [hy]
            simp only [List.length_append, List.length_cons] at h1
            omega
          have hrec := ih y hlen
          have hfirst := @ReplacedAll.first (o :: os) new [] y _ (by
            intro hi
            have := hi.length_le
            simp at this) hrec
          rw [← hy, replaceAll_cons, replaceScan_match, ← replaceAll_cons]
          simpa using hfirst
        · have hrec := ih cs hcs
          have hnp : ¬ (o :: os).isPrefixOf (c :: cs) = true := by
            rwa [List.isPrefixOf_iff_prefix]
          rw [replaceAll_cons, replaceScan, if_neg hnp, ← replaceAll_cons]
          exact replacedAll_cons o os new c cs _ hrec hp
  exact fun s => main s.length s le_rfl

/-- The spec wording determines the result: it is the one `ReplaceAll` computes. -/
theorem replacedAll_unique (o : Char) (os new : Str) (s r : Str)
    (h : ReplacedAll (o :: os) new s r) : r = ReplaceAll s (o :: os) new := by
  induction h with
  | absent s hn => exact (replaceAll_of_absent s _ new hn).symm
  | first x y r hx _ ih =>
    rw [replaceAll_cons, replaceScan_first o os new y x hx, ← replaceAll_cons, ← ih]

theorem replacedAll_iff (o : Char) (os new : Str) (s r : Str) :
    ReplacedAll (o :: os) new s r ↔ r = ReplaceAll s (o :: os) new :=
  ⟨replacedAll_unique o os new s r, fun h => h ▸ replacedAll_replaceAll o os new s⟩

/-! ## Replacement in separated templates -/

theorem text_SERVICE : Token.text .SERVICE = ['%', 'S', 'E', 'R', 'V', 'I', 'C', 'E', '%'] := rfl

theorem text_SERVICE_FQDN : Token.text .SERVICE_FQDN =
    ['%', 'S', 'E', 'R', 'V', 'I', 'C', 'E', '_', 'F', 'Q', 'D', 'N', '%'] := rfl

theorem text_SUBSET_NAME : Token.text .SUBSET_NAME =
    ['%', 'S', 'U', 'B', 'S', 'E', 'T', '_', 'N', 'A', 'M', 'E', '%'] := rfl

theorem text_SERVICE_PORT : Token.text .SERVICE_PORT =
    ['%', 'S', 'E', 'R', 'V', 'I', 'C', 'E', '_', 'P', 'O', 'R', 'T', '%'] := rfl

theorem text_SERVICE_PORT_NAME : Token.text .SERVICE_PORT_NAME =
    ['%', 'S', 'E', 'R', 'V', 'I', 'C', 'E', '_', 'P', 'O', 'R', 'T', '_', 'N', 'A', 'M', 'E', '%'] :=
  rfl

theorem replaceScan_tok_cons_ne (t : Token) (new : Str) (c : Char) (cs : Str) (hc : c ≠ '%') :
    replaceScan t.text new 0 (c :: cs) = c :: replaceScan t.text new 0 cs := by
  have hp : t.text.isPrefixOf (c :: cs) = false := by
    cases t <;>
      simp [text_SERVICE, text_SERVICE_FQDN, text_SUBSET_NAME, text_SERVICE_PORT,
        text_SERVICE_PORT_NAME, List.isPrefixOf, Ne.symm hc]
  rw [replaceScan, if_neg (by simp [hp])]

theorem replaceScan_tok_percent (t : Token) (new : Str) (rest : Str)
    (hr : rest.head? ≠ some 'S') :
    replaceScan t.text new 0 ('%' :: rest) = '%' :: replaceScan t.text new 0 rest := by
  have hp : t.text.isPrefixOf ('%' :: rest) = false := by
    cases rest with
    | nil => cases t <;> rfl
    | cons r rs =>
      have hr' : ¬ 'S' = r := by
        intro h; apply hr; simp [← h]
      cases t <;>
        simp [text_SERVICE, text_SERVICE_FQDN, text_SUBSET_NAME, text_SERVICE_PORT,
          text_SERVICE_PORT_NAME, List.isPrefixOf, hr']
  rw [replaceScan, if_neg (by simp [hp])]


theorem text_not_prefix_of_ne (t u : Token) (h : u ≠ t) (rest : Str) :
    t.text.isPrefixOf (u.text ++ rest) = false := by
  cases t <;> cases u <;>
    first
    | exact absurd rfl h
    | simp [text_SERVICE, text_SERVICE_FQDN, text_SUBSET_NAME, text_SERVICE_PORT,
        text_SERVICE_PORT_NAME, List.isPrefixOf]

theorem replaceScan_other_tok (t u : Token) (h : u ≠ t) (new rest : Str)
    (hr : rest.head? ≠ some 'S') :
    replaceScan t.text new 0 (u.text ++ rest) = u.text ++ replaceScan t.text new 0 rest := by
  have hp := text_not_prefix_of_ne t u h rest
  have step : ∀ (body : Str), (∀ c ∈ body, c ≠ '%') →
      replaceScan t.text new 0 (body ++ '%' :: rest)
        = body ++ '%' :: replaceScan t.text new 0 rest := by
    intro body
    induction body with
    | nil => intro _; exact replaceScan_tok_percent t new rest hr
    | cons b bs ih =>
      intro hb
      rw [List.cons_append, replaceScan_tok_cons_ne t new b _ (hb b (by simp)),
        ih (fun c hc => hb c (by simp [hc]))]
      rfl
  have hn : ¬ (t.text.isPrefixOf (u.text ++ rest) = true) := by simp [hp]
  cases u
  all_goals
    simp only [text_SERVICE, text_SERVICE_FQDN, text_SUBSET_NAME, text_SERVICE_PORT,
      text_SERVICE_PORT_NAME, List.cons_append, List.nil_append] at hn ⊢
    rw [replaceScan, if_neg hn]
    refine congrArg (List.cons '%') ?_
    first
    | exact step ['S', 'E', 'R', 'V', 'I', 'C', 'E'] (by decide)
    | exact step ['S', 'E', 'R', 'V', 'I', 'C', 'E', '_', 'F', 'Q', 'D', 'N'] (by decide)
    | exact step ['S', 'U', 'B', 'S', 'E', 'T', '_', 'N', 'A', 'M', 'E'] (by decide)
    | exact step ['S', 'E', 'R', 'V', 'I', 'C', 'E', '_', 'P', 'O', 'R', 'T'] (by decide)
    | exact step ['S', 'E', 'R', 'V', 'I', 'C', 'E', '_', 'P', 'O', 'R', 'T', '_', 'N', 'A', 'M', 'E']
        (by decide)

theorem replaceAll_tok (s : Str) (t : Token) (v : Str) :
    ReplaceAll s t.text v = replaceScan t.text v 0 s := by
  cases t <;> rfl

theorem render_lits_append (v : Str) (segs : List Seg) :
    render (lits v ++ segs) = v ++ render segs := by
  induction v with
  | nil => rfl
  | cons c cs ih =>
    show render (Seg.lit c :: (lits cs ++ segs)) = c :: (cs ++ render segs)
    rw [render, ih]

theorem head_render_of_delimited : ∀ segs : List Seg, delimited segs = true →
    (render segs).head? ≠ some 'S'
  | [], _ => by simp [render]
  | .lit c :: r, h => by
    simp only [delimited, bne_iff_ne, ne_eq] at h
    simpa [render] using h
  | .tok _ :: _, h => by simp [delimited] at h

/-- Replacing a token in the text of a separated template replaces exactly the occurrences
of that token in the template. -/
theorem replaceAll_render (t : Token) (v : Str) :
    ∀ segs : List Seg, separated segs = true →
      ReplaceAll (render segs) t.text v = render (substTok t v segs)
  | [], _ => by rw [replaceAll_tok]; rfl
  | .lit c :: r, h => by
    simp only [separated, Bool.and_eq_true, bne_iff_ne, ne_eq] at h
    have ih := replaceAll_render t v r h.2
    rw [replaceAll_tok] at ih ⊢
    simp only [render, substTok]
    rw [replaceScan_tok_cons_ne t v c _ h.1, ih]
  | .tok u :: r, h => by
    simp only [separated, Bool.and_eq_true] at h
    have ih := replaceAll_render t v r h.2
    rw [replaceAll_tok] at ih ⊢
    by_cases hu : u = t
    · subst hu
      simp only [render, substTok, if_true]
      rw [render_lits_append, ← ih]
      have hne : ∃ o os, u.text = o :: os := by cases u <;> exact ⟨_, _, rfl⟩
      obtain ⟨o, os, ho⟩ := hne
      rw [ho]
      exact replaceScan_match o os v (render r)
    · simp only [render, substTok, if_neg hu]
      rw [replaceScan_other_tok t u hu v _ (head_render_of_delimited r h.1), ih]

theorem percentFree_cons (c : Char) (cs : Str) :
    percentFree (c :: cs) = true ↔ c ≠ '%' ∧ percentFree cs = true := by
  simp only [percentFree, List.contains_cons, Bool.not_eq_true', Bool.or_eq_false_iff,
    beq_eq_false_iff_ne, ne_eq, Bool.not_eq_eq_eq_not, Bool.not_true]
  exact ⟨fun h => ⟨fun hc => h.1 hc.symm, h.2⟩, fun h => ⟨fun hc => h.1 hc.symm, h.2⟩⟩

theorem separated_lits_append (v : Str) (hv : percentFree v = true) (segs : List Seg)
    (h : separated segs = true) : separated (lits v ++ segs) = true := by
  induction v with
  | nil => simpa [lits] using h
  | cons c cs ih =>
    have hc := (percentFree_cons c cs).1 hv
    have := ih hc.2
    simp only [lits, List.map_cons, List.cons_append, separated, Bool.and_eq_true, bne_iff_ne,
      ne_eq] at this ⊢
    exact ⟨hc.1, this⟩

theorem delimited_substTok (t : Token) (v : Str) : ∀ segs : List Seg, delimited segs = true →
    delimited (substTok t v segs) = true
  | [], _ => rfl
  | .lit _ :: _, h => by simpa [substTok, delimited] using h
  | .tok _ :: _, h => by simp [delimited] at h

theorem separated_substTok (t : Token) (v : Str) (hv : percentFree v = true) :
    ∀ segs : List Seg, separated segs = true → separated (substTok t v segs) = true
  | [], _ => rfl
  | .lit c :: r, h => by
    simp only [separated, Bool.and_eq_true] at h
    simp only [substTok, separated, Bool.and_eq_true]
    exact ⟨h.1, separated_substTok t v hv r h.2⟩
  | .tok u :: r, h => by
    simp only [separated, Bool.and_eq_true] at h
    have ih := separated_substTok t v hv r h.2
    by_cases hu : u = t
    · simp only [substTok, hu, if_true]
      exact separated_lits_append v hv _ ih
    · simp only [substTok, if_neg hu, separated, Bool.and_eq_true]
      exact ⟨delimited_substTok t v r h.1, ih⟩

theorem applyOrder_render (val : Token → Str) (hval : ∀ t, percentFree (val t) = true) :
    ∀ (order : List Token) (segs : List Seg), separated segs = true →
      applyOrder val order (render segs)
        = render (order.foldl (fun sg t => substTok t (val t) sg) segs)
  | [], _, _ => rfl
  | t :: order, segs, h => by
    have ih := applyOrder_render val hval order (substTok t (val t) segs)
      (separated_substTok t (val t) (hval t) segs h)
    simp only [applyOrder, List.foldl_cons] at ih ⊢
    rw [replaceAll_render t (val t) segs h, ih]

theorem substAll_lits_append (val : Token → Str) (v : Str) (segs : List Seg) :
    substAll val (lits v ++ segs) = v ++ substAll val segs := by
  induction v with
  | nil => rfl
  | cons c cs ih =>
    show substAll val (Seg.lit c :: (lits cs ++ segs)) = c :: (cs ++ substAll val segs)
    rw [substAll, ih]

theorem substAll_substTok (val : Token → Str) (t : Token) :
    ∀ segs : List Seg, substAll val (substTok t (val t) segs) = substAll val segs
  | [] => rfl
  | .lit c :: r => by simp only [substTok, substAll, substAll_substTok val t r]
  | .tok u :: r => by
    by_cases hu : u = t
    · simp only [substTok, hu, if_true, substAll, substAll_lits_append, substAll_substTok val t r]
    · simp only [substTok, if_neg hu, substAll, substAll_substTok val t r]

theorem substAll_foldl (val : Token → Str) :
    ∀ (order : List Token) (segs : List Seg),
      substAll val (order.foldl (fun sg t => substTok t (val t) sg) segs) = substAll val segs
  | [], _ => rfl
  | t :: order, segs => by
    rw [List.foldl_cons, substAll_foldl val order, substAll_substTok]

theorem tok_not_mem_lits (u : Token) (v : Str) : Seg.tok u ∉ lits v := by
  simp [lits]

theorem tok_mem_substTok (u t : Token) (v : Str) :
    ∀ segs : List Seg, Seg.tok u ∈ substTok t v segs → Seg.tok u ∈ segs ∧ u ≠ t
  | [], h => by simp [substTok] at h
  | .lit c :: r, h => by
    simp only [substTok, List.mem_cons, reduceCtorEq, false_or] at h
    have := tok_mem_substTok u t v r h
    exact ⟨List.mem_cons_of_mem _ this.1, this.2⟩
  | .tok w :: r, h => by
    by_cases hw : w = t
    · simp only [substTok, hw, if_true, List.mem_append] at h
      rcases h with h | h
      · exact absurd h (tok_not_mem_lits u v)
      · have := tok_mem_substTok u t v r h
        exact ⟨List.mem_cons_of_mem _ this.1, this.2⟩
    · simp only [substTok, if_neg hw, List.mem_cons, Seg.tok.injEq] at h
      rcases h with h | h
      · subst h
        exact ⟨List.mem_cons_self _ _, hw⟩
      · have := tok_mem_substTok u t v r h
        exact ⟨List.mem_cons_of_mem _ this.1, this.2⟩

theorem tok_mem_foldl (val : Token → Str) (u : Token) :
    ∀ (order : List Token) (segs : List Seg),
      Seg.tok u ∈ order.foldl (fun sg t => substTok t (val t) sg) segs → u ∉ order
  | [], _, _ => by simp
  | t :: order, segs, h => by
    rw [List.foldl_cons] at h
    have h1 := tok_mem_foldl val u order _ h
    intro hmem
    rcases List.mem_cons.1 hmem with rfl | hmem
    · clear h1
      have key : ∀ (order : List Token) (sg : List Seg), Seg.tok u ∉ sg →
          Seg.tok u ∉ order.foldl (fun sg t => substTok t (val t) sg) sg := by
        intro order
        induction order with
        | nil => intro sg hsg; simpa using hsg
        | cons w ws ih =>
          intro sg hsg
          rw [List.foldl_cons]
          exact ih _ (fun hm => hsg (tok_mem_substTok u w (val w) sg hm).1)
      exact key order _ (fun hm => (tok_mem_substTok u u (val u) segs hm).2 rfl) h
    · exact h1 hmem

theorem render_eq_substAll (val : Token → Str) :
    ∀ segs : List Seg, (∀ u, Seg.tok u ∉ segs) → render segs = substAll val segs
  | [], _ => rfl
  | .lit c :: r, h => by
    rw [render, substAll, render_eq_substAll val r (fun u hu => h u (List.mem_cons_of_mem _ hu))]
  | .tok u :: _, h => absurd (List.mem_cons_self _ _) (h u)

/-- In a separated template, with values that have no percent sign, replacing the tokens
one after the other, in any order that names every token, gives the simultaneous
substitution. -/
theorem applyOrder_eq_substAll (val : Token → Str) (hval : ∀ t, percentFree (val t) = true)
    (order : List Token) (hall : ∀ t, t ∈ order) (segs : List Seg)
    (hsep : separated segs = true) :
    applyOrder val order (render segs) = substAll val segs := by
  rw [applyOrder_render val hval order segs hsep,
    render_eq_substAll val _ (fun u hu => tok_mem_foldl val u order segs hu (hall u)),
    substAll_foldl]

theorem buildStatPrefix_eq_applyOrder (statPattern host subset : Str) (port : Port)
    (a : ServiceAttributes) :
    BuildStatPrefix statPattern host subset (some port) (some a)
      = some (applyOrder (tokenValue host subset port a) sourceOrder statPattern) := by
  simp only [BuildStatPrefix, shortHostName, applyOrder, sourceOrder, List.foldl_cons,
    List.foldl_nil, tokenValue, shortName, Token.text]
  split_ifs <;> rfl

/-! ## The claims -/

/-- C1: for every pattern, host, subset, non-nil port and non-nil attributes, the result of
`BuildStatPrefix` is exactly the string obtained by the five all-occurrences, literal,
leftmost, non-overlapping replacements applied in the order SERVICE, SERVICE_FQDN,
SUBSET_NAME, SERVICE_PORT, SERVICE_PORT_NAME, with the short name (name, dot, namespace
for the Kubernetes registry, the host otherwise) as the value of SERVICE. -/
theorem C1_buildStatPrefix_sequential (pattern host subset : Str) (port : Port)
    (a : ServiceAttributes) (r : Str) :
    BuildStatPrefix pattern host subset (some port) (some a) = some r
      ↔ SpecStatPrefix pattern host subset port a r := by
  rw [buildStatPrefix_eq_applyOrder]
  simp only [SpecStatPrefix, applyOrder, sourceOrder, List.foldl_cons, List.foldl_nil,
    tokenValue, shortName, text_SERVICE, text_SERVICE_FQDN, text_SUBSET_NAME,
    text_SERVICE_PORT, text_SERVICE_PORT_NAME, Option.some.injEq]
  constructor
  · intro h
    subst h
    exact ⟨_, _, _, _, replacedAll_replaceAll _ _ _ _, replacedAll_replaceAll _ _ _ _,
      replacedAll_replaceAll _ _ _ _, replacedAll_replaceAll _ _ _ _,
      replacedAll_replaceAll _ _ _ _⟩
  · rintro ⟨p1, p2, p3, p4, h1, h2, h3, h4, h5⟩
    have e1 := replacedAll_unique _ _ _ _ _ h1
    have e2 := replacedAll_unique _ _ _ _ _ h2
    have e3 := replacedAll_unique _ _ _ _ _ h3
    have e4 := replacedAll_unique _ _ _ _ _ h4
    have e5 := replacedAll_unique _ _ _ _ _ h5
    subst e1 e2 e3 e4
    exact e5.symm

/-- C2: a pattern that contains none of the five tokens as a substring is returned
unchanged, whatever the host, subset, port and attributes; there is no error path. -/
theorem C2_no_token_unchanged (pattern host subset : Str) (port : Port)
    (a : ServiceAttributes) (h : tokenFree pattern) :
    BuildStatPrefix pattern host subset (some port) (some a) = some pattern := by
  rw [buildStatPrefix_eq_applyOrder]
  simp only [applyOrder, sourceOrder, List.foldl_cons, List.foldl_nil]
  rw [replaceAll_of_absent _ _ _ (h _), replaceAll_of_absent _ _ _ (h _),
    replaceAll_of_absent _ _ _ (h _), replaceAll_of_absent _ _ _ (h _),
    replaceAll_of_absent _ _ _ (h _)]

/-- Witness of C2: the pattern `outbound|stats` has no token and is returned unchanged. -/
theorem C2_no_token_unchanged_witness :
    tokenFree "outbound|stats".toList ∧
    BuildStatPrefix "outbound|stats".toList "my-host".toList "v1".toList
      (some ⟨"http".toList, 8080⟩) (some ⟨ProviderID.Kubernetes, "svc".toList, "ns".toList⟩)
      = some "outbound|stats".toList :=
  ⟨by decide, C2_no_token_unchanged _ _ _ _ _ (by decide)⟩

theorem mem_sourceOrder (t : Token) : t ∈ sourceOrder := by
  cases t <;> simp [sourceOrder]

theorem mem_of_perm_sourceOrder (order : List Token) (h : order.Perm sourceOrder) (t : Token) :
    t ∈ order :=
  h.mem_iff.2 (mem_sourceOrder t)

/-- C3, counterexample.  In the first pattern every token occurs exactly once, but the
occurrences of `%SERVICE%` and `%SERVICE_FQDN%` share a percent sign: the source order and
the order that starts with SERVICE_FQDN give different results.  In the second pattern the
five occurrences are apart, but the host is itself the text of a token: the result differs
from the simultaneous substitution. -/
theorem C3_counterexample :
    ((∀ t ∈ sourceOrder, occurrences (Token.text t)
        "%SERVICE%SERVICE_FQDN%|%SUBSET_NAME%|%SERVICE_PORT%|%SERVICE_PORT_NAME%".toList = 1) ∧
      List.Perm [Token.SERVICE_FQDN, Token.SERVICE, Token.SUBSET_NAME, Token.SERVICE_PORT,
        Token.SERVICE_PORT_NAME] sourceOrder ∧
      BuildStatPrefix "%SERVICE%SERVICE_FQDN%|%SUBSET_NAME%|%SERVICE_PORT%|%SERVICE_PORT_NAME%".toList
        "my-host".toList "v1".toList (some ⟨"http".toList, 8080⟩)
        (some ⟨ProviderID.Other 0, [], []⟩) = some "my-hostSERVICE_FQDN%|v1|8080|http".toList ∧
      applyOrder (tokenValue "my-host".toList "v1".toList ⟨"http".toList, 8080⟩
          ⟨ProviderID.Other 0, [], []⟩)
        [Token.SERVICE_FQDN, Token.SERVICE, Token.SUBSET_NAME, Token.SERVICE_PORT,
          Token.SERVICE_PORT_NAME]
        "%SERVICE%SERVICE_FQDN%|%SUBSET_NAME%|%SERVICE_PORT%|%SERVICE_PORT_NAME%".toList
        = "%SERVICEmy-host|v1|8080|http".toList) ∧
    (render [Seg.tok Token.SERVICE, Seg.lit '|', Seg.tok Token.SERVICE_FQDN, Seg.lit '|',
        Seg.tok Token.SUBSET_NAME, Seg.lit '|', Seg.tok Token.SERVICE_PORT, Seg.lit '|',
        Seg.tok Token.SERVICE_PORT_NAME]
        = "%SERVICE%|%SERVICE_FQDN%|%SUBSET_NAME%|%SERVICE_PORT%|%SERVICE_PORT_NAME%".toList ∧
      BuildStatPrefix "%SERVICE%|%SERVICE_FQDN%|%SUBSET_NAME%|%SERVICE_PORT%|%SERVICE_PORT_NAME%".toList
        "%SUBSET_NAME%".toList "v1".toList (some ⟨"http".toList, 8080⟩)
        (some ⟨ProviderID.Kubernetes, "svc".toList, "ns".toList⟩)
        = some "svc.ns|v1|v1|8080|http".toList ∧
      substAll (tokenValue "%SUBSET_NAME%".toList "v1".toList ⟨"http".toList, 8080⟩
          ⟨ProviderID.Kubernetes, "svc".toList, "ns".toList⟩)
        [Seg.tok Token.SERVICE, Seg.lit '|', Seg.tok Token.SERVICE_FQDN, Seg.lit '|',
          Seg.tok Token.SUBSET_NAME, Seg.lit '|', Seg.tok Token.SERVICE_PORT, Seg.lit '|',
          Seg.tok Token.SERVICE_PORT_NAME]
        = "svc.ns|%SUBSET_NAME%|v1|8080|http".toList) := by
  decide

/-- C3, amended: for every pattern made of literal text without a percent sign and of token
occurrences that are each followed by the end of the pattern or by a literal character
other than `S`, and for arguments whose five values contain no percent sign, the result of
`BuildStatPrefix` is the pattern with every token occurrence replaced by its value (the
simultaneous substitution), and the five replacements give this same result in whichever
order they are applied. -/
theorem C3_separated_simultaneous (segs : List Seg) (host subset : Str) (port : Port)
    (a : ServiceAttributes) (hsep : separated segs = true)
    (hval : ∀ t : Token, percentFree (tokenValue host subset port a t) = true) :
    BuildStatPrefix (render segs) host subset (some port) (some a)
        = some (substAll (tokenValue host subset port a) segs) ∧
      ∀ order : List Token, order.Perm sourceOrder →
        applyOrder (tokenValue host subset port a) order (render segs)
          = substAll (tokenValue host subset port a) segs := by
  refine ⟨?_, fun order hp => ?_⟩
  · rw [buildStatPrefix_eq_applyOrder,
      applyOrder_eq_substAll _ hval sourceOrder mem_sourceOrder segs hsep]
  · exact applyOrder_eq_substAll _ hval order (mem_of_perm_sourceOrder order hp) segs hsep

/-- Witness of C3 (amended): the template `%SERVICE%:%SERVICE_PORT%|%SUBSET_NAME%`. -/
theorem C3_separated_simultaneous_witness :
    separated [Seg.tok Token.SERVICE, Seg.lit ':', Seg.tok Token.SERVICE_PORT, Seg.lit '|',
        Seg.tok Token.SUBSET_NAME] = true ∧
    render [Seg.tok Token.SERVICE, Seg.lit ':', Seg.tok Token.SERVICE_PORT, Seg.lit '|',
        Seg.tok Token.SUBSET_NAME] = "%SERVICE%:%SERVICE_PORT%|%SUBSET_NAME%".toList ∧
    BuildStatPrefix "%SERVICE%:%SERVICE_PORT%|%SUBSET_NAME%".toList "my-host".toList "v1".toList
        (some ⟨"http".toList, 8080⟩) (some ⟨ProviderID.Other 0, [], []⟩)
      = some "my-host:8080|v1".toList :=
  ⟨by decide, by decide,
    (C3_separated_simultaneous
      [Seg.tok Token.SERVICE, Seg.lit ':', Seg.tok Token.SERVICE_PORT, Seg.lit '|',
        Seg.tok Token.SUBSET_NAME] "my-host".toList "v1".toList ⟨"http".toList, 8080⟩
      ⟨ProviderID.Other 0, [], []⟩ (by decide) (fun t => by cases t <;> decide)).1⟩

/-- C4, counterexample.  No value contains a token (the subset is empty), yet removing
`%SUBSET_NAME%` from the pattern joins the text around it into `%SERVICE%`, after the
replacement of that token has already run: the output contains a token, and a second run
changes it. -/
theorem C4_counterexample :
    (∀ t ∈ sourceOrder, tokenFree (tokenValue "my-host".toList [] ⟨"http".toList, 80⟩
        ⟨ProviderID.Other 0, [], []⟩ t)) ∧
    BuildStatPrefix "%SER%SUBSET_NAME%VICE%".toList "my-host".toList []
        (some ⟨"http".toList, 80⟩) (some ⟨ProviderID.Other 0, [], []⟩)
      = some "%SERVICE%".toList ∧
    ¬ tokenFree "%SERVICE%".toList ∧
    BuildStatPrefix "%SERVICE%".toList "my-host".toList []
        (some ⟨"http".toList, 80⟩) (some ⟨ProviderID.Other 0, [], []⟩)
      = some "my-host".toList := by
  decide

theorem percentFree_iff (s : Str) : percentFree s = true ↔ '%' ∉ s := by
  induction s with
  | nil => simp [percentFree]
  | cons c cs ih =>
    rw [percentFree_cons, ih, List.mem_cons, not_or]
    exact ⟨fun h => ⟨fun e => h.1 e.symm, h.2⟩, fun h => ⟨fun e => h.1 e.symm, h.2⟩⟩

theorem percent_not_mem_substAll (val : Token → Str)
    (hval : ∀ t, percentFree (val t) = true) :
    ∀ segs : List Seg, separated segs = true → '%' ∉ substAll val segs
  | [], _ => by simp [substAll]
  | .lit c :: r, h => by
    simp only [separated, Bool.and_eq_true, bne_iff_ne, ne_eq] at h
    have ih := percent_not_mem_substAll val hval r h.2
    rw [substAll, List.mem_cons, not_or]
    exact ⟨fun e => h.1 e.symm, ih⟩
  | .tok t :: r, h => by
    simp only [separated, Bool.and_eq_true] at h
    have ih := percent_not_mem_substAll val hval r h.2
    rw [substAll, List.mem_append, not_or]
    exact ⟨(percentFree_iff _).1 (hval t), ih⟩

theorem tokenFree_of_percent_absent (s : Str) (h : '%' ∉ s) : tokenFree s := by
  intro t hi
  apply h
  apply hi.subset
  cases t <;> decide

/-- C4, amended: for every pattern made of literal text without a percent sign and of token
occurrences that are each followed by the end of the pattern or by a literal character
other than `S`, and for arguments whose five values contain no percent sign, the output
`r` of `BuildStatPrefix` contains no token, and `BuildStatPrefix` applied to `r` with the
same arguments returns `r`. -/
theorem C4_separated_idempotent (segs : List Seg) (host subset : Str) (port : Port)
    (a : ServiceAttributes) (hsep : separated segs = true)
    (hval : ∀ t : Token, percentFree (tokenValue host subset port a t) = true) :
    ∃ r : Str,
      BuildStatPrefix (render segs) host subset (some port) (some a) = some r ∧
      tokenFree r ∧
      BuildStatPrefix r host subset (some port) (some a) = some r := by
  have hfree : tokenFree (substAll (tokenValue host subset port a) segs) :=
    tokenFree_of_percent_absent _ (percent_not_mem_substAll _ hval segs hsep)
  refine ⟨substAll (tokenValue host subset port a) segs, ?_, hfree, ?_⟩
  · rw [buildStatPrefix_eq_applyOrder,
      applyOrder_eq_substAll _ hval sourceOrder mem_sourceOrder segs hsep]
  · rw [buildStatPrefix_eq_applyOrder]
    simp only [applyOrder, sourceOrder, List.foldl_cons, List.foldl_nil]
    rw [replaceAll_of_absent _ _ _ (hfree _), replaceAll_of_absent _ _ _ (hfree _),
      replaceAll_of_absent _ _ _ (hfree _), replaceAll_of_absent _ _ _ (hfree _),
      replaceAll_of_absent _ _ _ (hfree _)]

/-- Witness of C4 (amended): the template `%SERVICE%:%SERVICE_PORT%` gives `my-host:8080`,
which has no token and is returned unchanged by a second run. -/
theorem C4_separated_idempotent_witness :
    separated [Seg.tok Token.SERVICE, Seg.lit ':', Seg.tok Token.SERVICE_PORT] = true ∧
    render [Seg.tok Token.SERVICE, Seg.lit ':', Seg.tok Token.SERVICE_PORT]
      = "%SERVICE%:%SERVICE_PORT%".toList ∧
    BuildStatPrefix "%SERVICE%:%SERVICE_PORT%".toList "my-host".toList "v1".toList
        (some ⟨"http".toList, 8080⟩) (some ⟨ProviderID.Other 0, [], []⟩)
      = some "my-host:8080".toList ∧
    ∃ r : Str,
      BuildStatPrefix (render [Seg.tok Token.SERVICE, Seg.lit ':', Seg.tok Token.SERVICE_PORT])
        "my-host".toList "v1".toList (some ⟨"http".toList, 8080⟩)
        (some ⟨ProviderID.Other 0, [], []⟩) = some r ∧
      tokenFree r ∧
      BuildStatPrefix r "my-host".toList "v1".toList (some ⟨"http".toList, 8080⟩)
        (some ⟨ProviderID.Other 0, [], []⟩) = some r :=
  ⟨by decide, by decide, by decide,
    C4_separated_idempotent [Seg.tok Token.SERVICE, Seg.lit ':', Seg.tok Token.SERVICE_PORT]
      "my-host".toList "v1".toList ⟨"http".toList, 8080⟩ ⟨ProviderID.Other 0, [], []⟩
      (by decide) (fun t => by cases t <;> decide)⟩

/-- C5, counterexample.  No value contains a token in either case.  In the pattern
`%SERVICE%SERVICE_FQDN%` two token occurrences share a percent sign, and the order that
starts with SERVICE_FQDN differs from `BuildStatPrefix`.  In the pattern
`%SUBSET_NAME%ERVICE%SERVICE_PORT%` the subset `%S` joins the text after it into
`%SERVICE%`, and the order that starts with SUBSET_NAME differs from `BuildStatPrefix`. -/
theorem C5_counterexample :
    ((∀ t ∈ sourceOrder, tokenFree (tokenValue "my-host".toList "v1".toList
          ⟨"http".toList, 8080⟩ ⟨ProviderID.Other 0, [], []⟩ t)) ∧
      List.Perm [Token.SERVICE_FQDN, Token.SERVICE, Token.SUBSET_NAME, Token.SERVICE_PORT,
        Token.SERVICE_PORT_NAME] sourceOrder ∧
      BuildStatPrefix "%SERVICE%SERVICE_FQDN%".toList "my-host".toList "v1".toList
          (some ⟨"http".toList, 8080⟩) (some ⟨ProviderID.Other 0, [], []⟩)
        = some "my-hostSERVICE_FQDN%".toList ∧
      applyOrder (tokenValue "my-host".toList "v1".toList ⟨"http".toList, 8080⟩
          ⟨ProviderID.Other 0, [], []⟩)
        [Token.SERVICE_FQDN, Token.SERVICE, Token.SUBSET_NAME, Token.SERVICE_PORT,
          Token.SERVICE_PORT_NAME] "%SERVICE%SERVICE_FQDN%".toList
        = "%SERVICEmy-host".toList) ∧
    ((∀ t ∈ sourceOrder, tokenFree (tokenValue "my-host".toList "%S".toList
          ⟨"http".toList, 8080⟩ ⟨ProviderID.Other 0, [], []⟩ t)) ∧
      List.Perm [Token.SUBSET_NAME, Token.SERVICE, Token.SERVICE_FQDN, Token.SERVICE_PORT,
        Token.SERVICE_PORT_NAME] sourceOrder ∧
      BuildStatPrefix "%SUBSET_NAME%ERVICE%SERVICE_PORT%".toList "my-host".toList "%S".toList
          (some ⟨"http".toList, 8080⟩) (some ⟨ProviderID.Other 0, [], []⟩)
        = some "%SERVICE8080".toList ∧
      applyOrder (tokenValue "my-host".toList "%S".toList ⟨"http".toList, 8080⟩
          ⟨ProviderID.Other 0, [], []⟩)
        [Token.SUBSET_NAME, Token.SERVICE, Token.SERVICE_FQDN, Token.SERVICE_PORT,
          Token.SERVICE_PORT_NAME] "%SUBSET_NAME%ERVICE%SERVICE_PORT%".toList
        = "my-hostSERVICE_PORT%".toList) := by
  decide

/-- C5, amended: for every pattern made of literal text without a percent sign and of token
occurrences that are each followed by the end of the pattern or by a literal character
other than `S`, and for arguments whose five values contain no percent sign, applying the
five replacements in any permutation of the source order gives the result of
`BuildStatPrefix`. -/
theorem C5_separated_any_order (segs : List Seg) (host subset : Str) (port : Port)
    (a : ServiceAttributes) (hsep : separated segs = true)
    (hval : ∀ t : Token, percentFree (tokenValue host subset port a t) = true)
    (order : List Token) (hperm : order.Perm sourceOrder) :
    BuildStatPrefix (render segs) host subset (some port) (some a)
      = some (applyOrder (tokenValue host subset port a) order (render segs)) := by
  rw [buildStatPrefix_eq_applyOrder,
    applyOrder_eq_substAll _ hval sourceOrder mem_sourceOrder segs hsep,
    applyOrder_eq_substAll _ hval order (mem_of_perm_sourceOrder order hperm) segs hsep]

/-- Witness of C5 (amended): the template `%SERVICE_PORT%_%SERVICE%` with the order reversed. -/
theorem C5_separated_any_order_witness :
    separated [Seg.tok Token.SERVICE_PORT, Seg.lit '_', Seg.tok Token.SERVICE] = true ∧
    List.Perm [Token.SERVICE_PORT_NAME, Token.SERVICE_PORT, Token.SUBSET_NAME,
      Token.SERVICE_FQDN, Token.SERVICE] sourceOrder ∧
    BuildStatPrefix (render [Seg.tok Token.SERVICE_PORT, Seg.lit '_', Seg.tok Token.SERVICE])
        "my-host".toList "v1".toList (some ⟨"http".toList, 8080⟩)
        (some ⟨ProviderID.Kubernetes, "svc".toList, "ns".toList⟩)
      = some (applyOrder (tokenValue "my-host".toList "v1".toList ⟨"http".toList, 8080⟩
          ⟨ProviderID.Kubernetes, "svc".toList, "ns".toList⟩)
        [Token.SERVICE_PORT_NAME, Token.SERVICE_PORT, Token.SUBSET_NAME, Token.SERVICE_FQDN,
          Token.SERVICE] (render [Seg.tok Token.SERVICE_PORT, Seg.lit '_', Seg.tok Token.SERVICE])) :=
  ⟨by decide, by decide,
    C5_separated_any_order [Seg.tok Token.SERVICE_PORT, Seg.lit '_', Seg.tok Token.SERVICE]
      "my-host".toList "v1".toList ⟨"http".toList, 8080⟩
      ⟨ProviderID.Kubernetes, "svc".toList, "ns".toList⟩ (by decide)
      (fun t => by cases t <;> decide) _ (by decide)⟩

theorem replaceAll_self (t : Token) (v : Str) : ReplaceAll t.text t.text v = v := by
  have hne : ∃ o os, t.text = o :: os := by cases t <;> exact ⟨_, _, rfl⟩
  obtain ⟨o, os, ho⟩ := hne
  rw [ho, replaceAll_cons]
  have := replaceScan_match o os v []
  simpa [replaceScan] using this

theorem buildStatPrefix_service (host subset : Str) (port : Port) (a : ServiceAttributes)
    (hfree : tokenFree (shortName host a)) :
    BuildStatPrefix serviceStatPattern host subset (some port) (some a)
      = some (shortName host a) := by
  rw [buildStatPrefix_eq_applyOrder]
  simp only [applyOrder, sourceOrder, List.foldl_cons, List.foldl_nil]
  have h0 : ReplaceAll serviceStatPattern (Token.text .SERVICE)
      (tokenValue host subset port a .SERVICE) = shortName host a :=
    replaceAll_self .SERVICE _
  rw [h0, replaceAll_of_absent _ _ _ (hfree _), replaceAll_of_absent _ _ _ (hfree _),
    replaceAll_of_absent _ _ _ (hfree _), replaceAll_of_absent _ _ _ (hfree _)]

/-- C6: with the pattern `%SERVICE%` and a short name that contains no token, the result is
name, dot, namespace of the attributes (whatever the host) for the Kubernetes registry, and
the host unchanged for every other registry value; the two examples of the spec evaluate to
`svc.ns` and `my-host:8080`. -/
theorem C6_service_is_short_name (host subset : Str) (port : Port) (a : ServiceAttributes)
    (hfree : tokenFree (shortName host a)) :
    (a.ServiceRegistry = ProviderID.Kubernetes →
      BuildStatPrefix "%SERVICE%".toList host subset (some port) (some a)
        = some (a.Name ++ ".".toList ++ a.Namespace)) ∧
    (a.ServiceRegistry ≠ ProviderID.Kubernetes →
      BuildStatPrefix "%SERVICE%".toList host subset (some port) (some a) = some host) ∧
    BuildStatPrefix "%SERVICE%".toList "my-host".toList [] (some ⟨[], 80⟩)
        (some ⟨ProviderID.Kubernetes, "svc".toList, "ns".toList⟩) = some "svc.ns".toList ∧
    BuildStatPrefix "%SERVICE%:%SERVICE_PORT%".toList "my-host".toList "v1".toList
        (some ⟨"http".toList, 8080⟩) (some ⟨ProviderID.Other 0, [], []⟩)
      = some "my-host:8080".toList := by
  have h := buildStatPrefix_service host subset port a hfree
  refine ⟨fun hk => ?_, fun hk => ?_, by decide, by decide⟩
  · rw [show "%SERVICE%".toList = serviceStatPattern from rfl, h, shortName, if_pos hk]
  · rw [show "%SERVICE%".toList = serviceStatPattern from rfl, h, shortName, if_neg hk]

/-- Witness of C6: a Kubernetes service `svc` in namespace `ns`, reached under another host
name. -/
theorem C6_service_is_short_name_witness :
    tokenFree (shortName "other-host".toList ⟨ProviderID.Kubernetes, "svc".toList, "ns".toList⟩) ∧
    BuildStatPrefix "%SERVICE%".toList "other-host".toList "v2".toList (some ⟨"grpc".toList, 443⟩)
        (some ⟨ProviderID.Kubernetes, "svc".toList, "ns".toList⟩)
      = some ("svc".toList ++ ".".toList ++ "ns".toList) :=
  ⟨by decide,
    (C6_service_is_short_name "other-host".toList "v2".toList ⟨"grpc".toList, 443⟩
      ⟨ProviderID.Kubernetes, "svc".toList, "ns".toList⟩ (by decide)).1 rfl⟩

/-- C7: `ShortHostname` returns the service name, a dot and the namespace whenever the
service name is non-empty (with an empty namespace the dot is last: `svcA.`; `svcA.ns1` for
name `svcA` and namespace `ns1`), and the string form of `InstanceHostname` when the service
name is empty; with a non-empty service name the result is the string form of
`InstanceHostname` only if that string is itself name, dot, namespace. -/
theorem C7_shortHostname (tm : FilterChainMetadata) :
    (tm.KubernetesServiceName ≠ [] →
      tm.ShortHostname
        = tm.KubernetesServiceName ++ ".".toList ++ tm.KubernetesServiceNamespace) ∧
    (tm.KubernetesServiceName = [] → tm.ShortHostname = tm.InstanceHostname.String) ∧
    (tm.KubernetesServiceName ≠ [] →
      tm.InstanceHostname.String
        ≠ tm.KubernetesServiceName ++ ".".toList ++ tm.KubernetesServiceNamespace →
      tm.ShortHostname ≠ tm.InstanceHostname.String) ∧
    FilterChainMetadata.ShortHostname ⟨⟨"a.example.com".toList⟩, [], "svcA".toList⟩
      = "svcA.".toList ∧
    FilterChainMetadata.ShortHostname ⟨⟨"a.example.com".toList⟩, "ns1".toList, "svcA".toList⟩
      = "svcA.ns1".toList := by
  refine ⟨fun h => ?_, fun h => ?_, fun h hne => ?_, by decide, by decide⟩
  · rw [FilterChainMetadata.ShortHostname, if_pos h]
  · rw [FilterChainMetadata.ShortHostname, if_neg (not_not.2 h)]
  · rw [FilterChainMetadata.ShortHostname, if_pos h]
    exact fun e => hne e.symm

/-- Witness of C7: an empty service name gives the instance host name. -/
theorem C7_shortHostname_witness :
    FilterChainMetadata.ShortHostname ⟨⟨"a.example.com".toList⟩, "ns1".toList, []⟩
      = "a.example.com".toList :=
  (C7_shortHostname ⟨⟨"a.example.com".toList⟩, "ns1".toList, []⟩).2.1 rfl

/-- C8: `BuildInboundStatPrefix` is `BuildStatPrefix` with the string form of
`InstanceHostname` as host, the port descriptor made of `int(port)` and `portName`, and
attributes that are the Kubernetes registry with the service name and namespace of `tm` when
the service name is non-empty, and any attributes of another registry when it is empty;
this holds whatever the width of `int`. -/
theorem C8_inbound_refines_buildStatPrefix (intSize : Nat) (pattern : Str)
    (tm : FilterChainMetadata) (subset : Str) (port : Nat) (portName : Str) :
    (tm.KubernetesServiceName ≠ [] →
      BuildStatPrefix pattern tm.InstanceHostname.String subset
          (some ⟨portName, intOfUint32 intSize port⟩)
          (some ⟨ProviderID.Kubernetes, tm.KubernetesServiceName,
            tm.KubernetesServiceNamespace⟩)
        = some (BuildInboundStatPrefix intSize pattern tm subset port portName)) ∧
    (tm.KubernetesServiceName = [] →
      ∀ a : ServiceAttributes, a.ServiceRegistry ≠ ProviderID.Kubernetes →
        BuildStatPrefix pattern tm.InstanceHostname.String subset
            (some ⟨portName, intOfUint32 intSize port⟩) (some a)
          = some (BuildInboundStatPrefix intSize pattern tm subset port portName)) := by
  refine ⟨fun h => ?_, fun h a ha => ?_⟩
  · simp only [BuildStatPrefix, shortHostName, BuildInboundStatPrefix,
      FilterChainMetadata.ShortHostname, if_pos h, if_true]
  · simp only [BuildStatPrefix, shortHostName, BuildInboundStatPrefix,
      FilterChainMetadata.ShortHostname, if_neg (not_not.2 h), if_neg ha]

/-- Witness of C8: an inbound chain of the Kubernetes service `svcA` in `ns1`, port 9080. -/
theorem C8_inbound_refines_buildStatPrefix_witness :
    BuildStatPrefix "%SERVICE%_%SERVICE_PORT%".toList "a.example.com".toList "v1".toList
        (some ⟨"http".toList, intOfUint32 64 9080⟩)
        (some ⟨ProviderID.Kubernetes, "svcA".toList, "ns1".toList⟩)
      = some (BuildInboundStatPrefix 64 "%SERVICE%_%SERVICE_PORT%".toList
          ⟨⟨"a.example.com".toList⟩, "ns1".toList, "svcA".toList⟩ "v1".toList 9080
          "http".toList) :=
  (C8_inbound_refines_buildStatPrefix 64 "%SERVICE%_%SERVICE_PORT%".toList
    ⟨⟨"a.example.com".toList⟩, "ns1".toList, "svcA".toList⟩ "v1".toList 9080
    "http".toList).1 (by decide)

/-- C9: the comment on `TraceOperation` gives the format `%s:%d/*`, which for the host `::1`
and port 80 is `::1:80/*`; with the collaborator `util.DomainName`, which puts an IPv6 host
in brackets, the code returns `[::1]:80/*`. -/
theorem C9_traceOperation_ipv6_host :
    TraceOperation DomainName "::1".toList 80 = "[::1]:80/*".toList ∧
    "::1".toList ++ ":".toList ++ Itoa 80 ++ "/*".toList = "::1:80/*".toList ∧
    TraceOperation DomainName "::1".toList 80
      ≠ "::1".toList ++ ":".toList ++ Itoa 80 ++ "/*".toList := by
  decide

/-- For a host without a colon the result has the format of the comment: the host, a colon,
the base-10 text of the port and `/*`. -/
theorem traceOperation_of_no_colon (host : Str) (port : Int) (h : ':' ∉ host) :
    TraceOperation DomainName host port = host ++ ":".toList ++ Itoa port ++ "/*".toList := by
  rw [TraceOperation, DomainName, if_neg h]

/-- C10: whatever the collaborator `DomainName` computes, `TraceOperation(host, port)` is
that string followed by the two characters `/*`: the result ends in `/*`, without its last
two characters it is exactly `DomainName(host, port)`, and it is two characters longer. -/
theorem C10_traceOperation_suffix (domainName : Str → Int → Str) (host : Str) (port : Int) :
    TraceOperation domainName host port = domainName host port ++ ['/', '*'] ∧
    ['/', '*'] <:+ TraceOperation domainName host port ∧
    (TraceOperation domainName host port).take
        ((TraceOperation domainName host port).length - 2) = domainName host port ∧
    (TraceOperation domainName host port).length = (domainName host port).length + 2 ∧
    (domainName host port).length + 2 ≤ (TraceOperation domainName host port).length := by
  have e : TraceOperation domainName host port = domainName host port ++ ['/', '*'] := rfl
  refine ⟨e, ?_, ?_, ?_, ?_⟩
  · rw [e]; exact List.suffix_append _ _
  · rw [e]; simp
  · rw [e]; simp
  · rw [e]; simp

/-! ## Lemmas on `strconv.Itoa` -/

theorem toDigitsCore_eq_digits :
    ∀ (fuel n : Nat) (ds : Str), 0 < n → n < fuel →
      Nat.toDigitsCore 10 fuel n ds = (Nat.digits 10 n).reverse.map Nat.digitChar ++ ds
  | 0, _, _, _, hf => absurd hf (Nat.not_lt_zero _)
  | fuel + 1, n, ds, hn, hf => by
    by_cases h0 : n / 10 = 0
    · have hlt : n < 10 := by omega
      simp only [Nat.toDigitsCore, h0, if_true]
      rw [Nat.digits_of_lt 10 n (by omega) hlt, Nat.mod_eq_of_lt hlt]
      rfl
    · have hpos : 0 < n / 10 := Nat.pos_of_ne_zero h0
      have hlt : n / 10 < fuel := by omega
      simp only [Nat.toDigitsCore, h0, if_false]
      rw [toDigitsCore_eq_digits fuel (n / 10) _ hpos hlt,
        Nat.digits_def' (by decide : 1 < 10) hn]
      simp

theorem toDigits_eq_digits (n : Nat) (hn : 0 < n) :
    Nat.toDigits 10 n = (Nat.digits 10 n).reverse.map Nat.digitChar := by
  rw [Nat.toDigits, toDigitsCore_eq_digits (n + 1) n [] hn (Nat.lt_succ_self n),
    List.append_nil]

theorem toDigits_zero : Nat.toDigits 10 0 = ['0'] := rfl

theorem digitChar_isDigit (d : Nat) (hd : d < 10) : (Nat.digitChar d).isDigit = true := by
  interval_cases d <;> rfl

theorem digitChar_value (d : Nat) (hd : d < 10) : (Nat.digitChar d).toNat - 48 = d := by
  interval_cases d <;> rfl

theorem digitChar_ne_zero (d : Nat) (hd : d < 10) (h0 : d ≠ 0) : Nat.digitChar d ≠ '0' := by
  interval_cases d <;> first | exact absurd rfl h0 | decide

theorem toDigits_isDigit (n : Nat) : ∀ c ∈ Nat.toDigits 10 n, c.isDigit = true := by
  rcases Nat.eq_zero_or_pos n with rfl | hn
  · intro c hc
    rw [toDigits_zero, List.mem_singleton] at hc
    subst hc
    rfl
  · intro c hc
    rw [toDigits_eq_digits n hn, List.mem_map] at hc
    obtain ⟨d, hd, rfl⟩ := hc
    exact digitChar_isDigit d (Nat.digits_lt_base (by decide) (List.mem_reverse.1 hd))

theorem decimalValue_map_digitChar :
    ∀ L : List Nat, (∀ d ∈ L, d < 10) →
      decimalValue (L.reverse.map Nat.digitChar) = Nat.ofDigits 10 L
  | [], _ => rfl
  | d :: L, h => by
    have ih := decimalValue_map_digitChar L (fun x hx => h x (List.mem_cons_of_mem _ hx))
    simp only [decimalValue] at ih ⊢
    rw [List.reverse_cons, List.map_append, List.foldl_append, ih, Nat.ofDigits_cons]
    simp only [List.map_cons, List.map_nil, List.foldl_cons, List.foldl_nil]
    rw [digitChar_value d (h d (List.mem_cons_self _ _))]
    show 10 * Nat.ofDigits 10 L + d = _
    omega

theorem decimalValue_toDigits (n : Nat) : decimalValue (Nat.toDigits 10 n) = n := by
  rcases Nat.eq_zero_or_pos n with rfl | hn
  · rfl
  · rw [toDigits_eq_digits n hn,
      decimalValue_map_digitChar _ (fun d hd => Nat.digits_lt_base (by decide) hd),
      Nat.ofDigits_digits]

theorem toDigits_length (n : Nat) (hn : 0 < n) :
    (Nat.toDigits 10 n).length = (Nat.digits 10 n).length := by
  rw [toDigits_eq_digits n hn]; simp

theorem toDigits_head_ne_zero (n : Nat) (hn : 0 < n) :
    (Nat.toDigits 10 n).head? ≠ some '0' := by
  have hne : Nat.digits 10 n ≠ [] := Nat.digits_ne_nil_iff_ne_zero.2 (by omega)
  have hlast := Nat.getLast_digit_ne_zero 10 (Nat.pos_iff_ne_zero.1 hn)
  rw [toDigits_eq_digits n hn]
  rw [← List.dropLast_append_getLast hne]
  simp only [List.reverse_append, List.reverse_cons, List.reverse_nil, List.nil_append,
    List.singleton_append, List.map_cons, List.head?_cons, ne_eq, Option.some.injEq]
  exact digitChar_ne_zero _
    (Nat.digits_lt_base (by decide) (List.getLast_mem hne)) hlast

theorem percent_not_mem_of_isDigit (s : Str) (h : ∀ c ∈ s, c.isDigit = true) : '%' ∉ s :=
  fun hm => absurd (h _ hm) (by decide)

theorem tokenFree_of_no_percent (s : Str) (h : '%' ∉ s) : tokenFree s :=
  tokenFree_of_percent_absent s h

theorem text_not_substring (t u : Token) (h : u ≠ t) : ¬ u.text <:+: t.text := by
  cases t <;> cases u <;> first | exact absurd rfl h | decide

/-- The five passes of `BuildStatPrefix`, written out. -/
theorem buildStatPrefix_passes (pattern host subset : Str) (port : Port)
    (a : ServiceAttributes) :
    BuildStatPrefix pattern host subset (some port) (some a)
      = some (ReplaceAll (ReplaceAll (ReplaceAll (ReplaceAll
          (ReplaceAll pattern (Token.text .SERVICE) (shortName host a))
          (Token.text .SERVICE_FQDN) host) (Token.text .SUBSET_NAME) subset)
          (Token.text .SERVICE_PORT) (Itoa port.Port))
          (Token.text .SERVICE_PORT_NAME) port.Name) :=
  buildStatPrefix_eq_applyOrder pattern host subset port a

/-- C11: with the pattern `%SERVICE_FQDN%` and a host that contains no token, the result is
the host, for every subset, port and attributes, Kubernetes or not; the earlier replacement
of `%SERVICE%` finds no occurrence in the token `%SERVICE_FQDN%` and leaves it as it is. -/
theorem C11_fqdn_is_host (host subset : Str) (port : Port) (a : ServiceAttributes)
    (hfree : tokenFree host) :
    BuildStatPrefix "%SERVICE_FQDN%".toList host subset (some port) (some a) = some host ∧
    ¬ "%SERVICE%".toList <:+: "%SERVICE_FQDN%".toList ∧
    ∀ v : Str, ReplaceAll "%SERVICE_FQDN%".toList "%SERVICE%".toList v
      = "%SERVICE_FQDN%".toList := by
  have habs : ¬ Token.text .SERVICE <:+: Token.text .SERVICE_FQDN :=
    text_not_substring _ _ (by decide)
  refine ⟨?_, habs, fun v => replaceAll_of_absent _ _ v habs⟩
  show BuildStatPrefix (Token.text .SERVICE_FQDN) host subset (some port) (some a) = some host
  rw [buildStatPrefix_passes, replaceAll_of_absent _ _ _ habs, replaceAll_self,
    replaceAll_of_absent _ _ _ (hfree _), replaceAll_of_absent _ _ _ (hfree _),
    replaceAll_of_absent _ _ _ (hfree _)]

/-- Witness of C11: a Kubernetes service reached under the host `svc.ns.svc.cluster.local`. -/
theorem C11_fqdn_is_host_witness :
    tokenFree "svc.ns.svc.cluster.local".toList ∧
    BuildStatPrefix "%SERVICE_FQDN%".toList "svc.ns.svc.cluster.local".toList "v1".toList
        (some ⟨"http".toList, 8080⟩) (some ⟨ProviderID.Kubernetes, "svc".toList, "ns".toList⟩)
      = some "svc.ns.svc.cluster.local".toList :=
  ⟨by decide,
    (C11_fqdn_is_host "svc.ns.svc.cluster.local".toList "v1".toList ⟨"http".toList, 8080⟩
      ⟨ProviderID.Kubernetes, "svc".toList, "ns".toList⟩ (by decide)).1⟩

/-- C14: with the pattern `%SERVICE_PORT_NAME%` the result is exactly the port name, whatever
the host, subset, port and attributes contain: none of the four earlier tokens (in
particular `%SERVICE_PORT%`) occurs in the token `%SERVICE_PORT_NAME%`, and the last
replacement inserts the port name, after which nothing is rewritten. -/
theorem C14_port_name_exact (host subset : Str) (port : Port) (a : ServiceAttributes) :
    BuildStatPrefix "%SERVICE_PORT_NAME%".toList host subset (some port) (some a)
      = some port.Name ∧
    (∀ t : Token, t ≠ Token.SERVICE_PORT_NAME →
      ¬ t.text <:+: "%SERVICE_PORT_NAME%".toList) ∧
    ∀ v : Str, ReplaceAll "%SERVICE_PORT_NAME%".toList "%SERVICE_PORT%".toList v
      = "%SERVICE_PORT_NAME%".toList := by
  have habs : ∀ t : Token, t ≠ Token.SERVICE_PORT_NAME →
      ¬ t.text <:+: Token.text .SERVICE_PORT_NAME :=
    fun t ht => text_not_substring _ t ht
  refine ⟨?_, habs, fun v => replaceAll_of_absent _ _ v (habs .SERVICE_PORT (by decide))⟩
  show BuildStatPrefix (Token.text .SERVICE_PORT_NAME) host subset (some port) (some a)
    = some port.Name
  rw [buildStatPrefix_passes, replaceAll_of_absent _ _ _ (habs _ (by decide)),
    replaceAll_of_absent _ _ _ (habs _ (by decide)),
    replaceAll_of_absent _ _ _ (habs _ (by decide)),
    replaceAll_of_absent _ _ _ (habs _ (by decide)), replaceAll_self]

/-- Witness of C14: a port name that is itself the text of a token is inserted and kept. -/
theorem C14_port_name_exact_witness :
    BuildStatPrefix "%SERVICE_PORT_NAME%".toList "my-host".toList "v1".toList
        (some ⟨"%SERVICE%".toList, 80⟩) (some ⟨ProviderID.Other 0, [], []⟩)
      = some "%SERVICE%".toList :=
  (C14_port_name_exact "my-host".toList "v1".toList ⟨"%SERVICE%".toList, 80⟩
    ⟨ProviderID.Other 0, [], []⟩).1

theorem itoa_natCast (n : Nat) : Itoa (n : Int) = Nat.toDigits 10 n := rfl

theorem toDigits_length_bounds (n : Nat) (h1 : 1 ≤ n) (h2 : n ≤ 65535) :
    1 ≤ (Nat.toDigits 10 n).length ∧ (Nat.toDigits 10 n).length ≤ 5 := by
  have hne : Nat.digits 10 n ≠ [] := Nat.digits_ne_nil_iff_ne_zero.2 (by omega)
  rw [toDigits_length n h1]
  refine ⟨List.length_pos.2 hne, ?_⟩
  by_contra hlen
  have h6 : 6 ≤ (Nat.digits 10 n).length := by omega
  have hpow : 10 ^ 6 ≤ 10 ^ (Nat.digits 10 n).length :=
    Nat.pow_le_pow_right (by decide) h6
  have hle := Nat.base_pow_length_digits_le 10 n (by decide) (by omega)
  omega

theorem buildStatPrefix_port (host subset : Str) (port : Port) (a : ServiceAttributes) :
    BuildStatPrefix servicePortStatPattern host subset (some port) (some a)
      = some (Itoa port.Port) ∨ port.Port < 0 := by
  by_cases hneg : port.Port < 0
  · exact Or.inr hneg
  · left
    obtain ⟨n, hn⟩ := Int.eq_ofNat_of_zero_le (not_lt.1 hneg)
    have hfree : tokenFree (Itoa port.Port) := by
      rw [hn, itoa_natCast]
      exact tokenFree_of_no_percent _ (percent_not_mem_of_isDigit _ (toDigits_isDigit n))
    show BuildStatPrefix (Token.text .SERVICE_PORT) host subset (some port) (some a) = _
    rw [buildStatPrefix_passes,
      replaceAll_of_absent _ _ _ (text_not_substring .SERVICE_PORT .SERVICE (by decide)),
      replaceAll_of_absent _ _ _ (text_not_substring .SERVICE_PORT .SERVICE_FQDN (by decide)),
      replaceAll_of_absent _ _ _ (text_not_substring .SERVICE_PORT .SUBSET_NAME (by decide)),
      replaceAll_self, replaceAll_of_absent _ _ _ (hfree _)]

/-- C12: for a port number from 1 to 65535, and all other arguments, the pattern
`%SERVICE_PORT%` gives the canonical base-10 numeral of the port: 1 to 5 characters, all
decimal digits (so no sign), no leading zero, and reading it back in base 10 gives the
port number. -/
theorem C12_port_is_decimal (host subset : Str) (port : Port) (a : ServiceAttributes)
    (h1 : 1 ≤ port.Port) (h2 : port.Port ≤ 65535) :
    ∃ r : Str,
      BuildStatPrefix "%SERVICE_PORT%".toList host subset (some port) (some a) = some r ∧
      1 ≤ r.length ∧ r.length ≤ 5 ∧
      (∀ c ∈ r, c.isDigit = true) ∧
      r.head? ≠ some '0' ∧ r.head? ≠ some '-' ∧ r.head? ≠ some '+' ∧
      (decimalValue r : Int) = port.Port := by
  obtain ⟨n, hn⟩ := Int.eq_ofNat_of_zero_le (by omega : 0 ≤ port.Port)
  have hb := (buildStatPrefix_port host subset port a).resolve_right (by omega)
  have hn1 : 1 ≤ n := by omega
  have hn2 : n ≤ 65535 := by omega
  have hdig := toDigits_isDigit n
  have hhead : ∀ c : Char, c.isDigit = false → (Nat.toDigits 10 n).head? ≠ some c := by
    intro c hc hh
    have := hdig c (List.mem_of_mem_head? hh)
    rw [hc] at this
    exact Bool.false_ne_true this
  rw [hn, itoa_natCast] at hb
  refine ⟨Nat.toDigits 10 n, hb, (toDigits_length_bounds n hn1 hn2).1,
    (toDigits_length_bounds n hn1 hn2).2, hdig, toDigits_head_ne_zero n hn1,
    hhead '-' (by decide), hhead '+' (by decide), ?_⟩
  rw [decimalValue_toDigits, hn]

/-- Witness of C12: the largest port, 65535, gives the five digits `65535`. -/
theorem C12_port_is_decimal_witness :
    ∃ r : Str,
      BuildStatPrefix "%SERVICE_PORT%".toList "my-host".toList "v1".toList
        (some ⟨"http".toList, 65535⟩) (some ⟨ProviderID.Other 0, [], []⟩) = some r ∧
      1 ≤ r.length ∧ r.length ≤ 5 ∧
      (∀ c ∈ r, c.isDigit = true) ∧
      r.head? ≠ some '0' ∧ r.head? ≠ some '-' ∧ r.head? ≠ some '+' ∧
      (decimalValue r : Int) = 65535 :=
  C12_port_is_decimal "my-host".toList "v1".toList ⟨"http".toList, 65535⟩
    ⟨ProviderID.Other 0, [], []⟩ (by decide) (by decide)

theorem intOfUint32_eq (intSize p : Nat) (hp : p < 2 ^ 32) (hw : p < 2 ^ (intSize - 1)) :
    intOfUint32 intSize p = (p : Int) := by
  have hle : 2 ^ (intSize - 1) ≤ 2 ^ intSize :=
    Nat.pow_le_pow_right (by decide) (Nat.sub_le intSize 1)
  have h1 : p % 2 ^ 32 = p := Nat.mod_eq_of_lt hp
  have h2 : p % 2 ^ intSize = p := Nat.mod_eq_of_lt (lt_of_lt_of_le hw hle)
  simp only [intOfUint32, h1, h2]
  rw [if_pos hw]

/-- C13, counterexample: on a target whose `int` is 32 bits wide the conversion `int(port)`
of the port value 4294967295 is -1, and the inbound prefix for the pattern
`%SERVICE_PORT%` is `-1`, which starts with a minus sign. -/
theorem C13_counterexample :
    4294967295 < 2 ^ 32 ∧
    intOfUint32 32 4294967295 = -1 ∧
    BuildInboundStatPrefix 32 "%SERVICE_PORT%".toList
        ⟨⟨"a.example.com".toList⟩, "ns1".toList, "svcA".toList⟩ "v1".toList 4294967295
        "http".toList
      = "-1".toList ∧
    (BuildInboundStatPrefix 32 "%SERVICE_PORT%".toList
        ⟨⟨"a.example.com".toList⟩, "ns1".toList, "svcA".toList⟩ "v1".toList 4294967295
        "http".toList).head? = some '-' := by
  decide

/-- C13, amended: for every unsigned 32-bit port value `p` below `2 ^ (intSize - 1)`, where
`intSize` is the width of `int` on the target (every `p` when `int` is 64 bits wide, `p` up
to 2147483647 when it is 32 bits wide), and every `tm`, subset and port name, the pattern
`%SERVICE_PORT%` gives under `BuildInboundStatPrefix` the unsigned base-10 numeral of `p`:
the conversion `int(port)` is not negative and keeps the value, the result consists of
decimal digits, does not start with a minus sign, and its decimal value is `p`. -/
theorem C13_inbound_port_unsigned (intSize : Nat) (tm : FilterChainMetadata) (subset : Str)
    (p : Nat) (portName : Str) (hp : p < 2 ^ 32) (hw : p < 2 ^ (intSize - 1)) :
    0 ≤ intOfUint32 intSize p ∧ intOfUint32 intSize p = (p : Int) ∧
    BuildInboundStatPrefix intSize "%SERVICE_PORT%".toList tm subset p portName
      = Nat.toDigits 10 p ∧
    (∀ c ∈ BuildInboundStatPrefix intSize "%SERVICE_PORT%".toList tm subset p portName,
      c.isDigit = true) ∧
    (BuildInboundStatPrefix intSize "%SERVICE_PORT%".toList tm subset p portName).head?
      ≠ some '-' ∧
    decimalValue (BuildInboundStatPrefix intSize "%SERVICE_PORT%".toList tm subset p portName)
      = p := by
  have hconv := intOfUint32_eq intSize p hp hw
  have hdig := toDigits_isDigit p
  have hfree : tokenFree (Nat.toDigits 10 p) :=
    tokenFree_of_no_percent _ (percent_not_mem_of_isDigit _ hdig)
  have hb : BuildInboundStatPrefix intSize "%SERVICE_PORT%".toList tm subset p portName
      = Nat.toDigits 10 p := by
    show ReplaceAll (ReplaceAll (ReplaceAll (ReplaceAll
        (ReplaceAll (Token.text .SERVICE_PORT) (Token.text .SERVICE) tm.ShortHostname)
        (Token.text .SERVICE_FQDN) tm.InstanceHostname.String) (Token.text .SUBSET_NAME) subset)
        (Token.text .SERVICE_PORT) (Itoa (intOfUint32 intSize p)))
        (Token.text .SERVICE_PORT_NAME) portName = _
    rw [hconv, itoa_natCast,
      replaceAll_of_absent _ _ _ (text_not_substring .SERVICE_PORT .SERVICE (by decide)),
      replaceAll_of_absent _ _ _ (text_not_substring .SERVICE_PORT .SERVICE_FQDN (by decide)),
      replaceAll_of_absent _ _ _ (text_not_substring .SERVICE_PORT .SUBSET_NAME (by decide)),
      replaceAll_self, replaceAll_of_absent _ _ _ (hfree _)]
  refine ⟨by rw [hconv]; exact Int.ofNat_nonneg p, hconv, hb, ?_, ?_, ?_⟩
  · rw [hb]; exact hdig
  · rw [hb]
    intro hh
    have := hdig '-' (List.mem_of_mem_head? hh)
    exact absurd this (by decide)
  · rw [hb, decimalValue_toDigits]

/-- Witness of C13 (amended): the largest unsigned 32-bit value, 4294967295, on a target
whose `int` is 64 bits wide. -/
theorem C13_inbound_port_unsigned_witness :
    4294967295 < 2 ^ 32 ∧ 4294967295 < 2 ^ (64 - 1) ∧
    Nat.toDigits 10 4294967295 = "4294967295".toList ∧
    BuildInboundStatPrefix 64 "%SERVICE_PORT%".toList
        ⟨⟨"a.example.com".toList⟩, "ns1".toList, "svcA".toList⟩ "v1".toList 4294967295
        "http".toList
      = Nat.toDigits 10 4294967295 :=
  ⟨by decide, by decide, by decide,
    (C13_inbound_port_unsigned 64 ⟨⟨"a.example.com".toList⟩, "ns1".toList, "svcA".toList⟩
      "v1".toList 4294967295 "http".toList (by decide) (by decide)).2.2.1⟩

/-- C15: the attributes reach the result only through the `%SERVICE%` token.  For a
pattern that does not contain `%SERVICE%`, any two attributes values give the same result;
and for every pattern, two attributes values of registries other than Kubernetes (in
particular two that differ only in name and namespace) give the same result. -/
theorem C15_attributes_only_through_service (pattern host subset : Str) (port : Port)
    (a1 a2 : ServiceAttributes) :
    (¬ "%SERVICE%".toList <:+: pattern →
      BuildStatPrefix pattern host subset (some port) (some a1)
        = BuildStatPrefix pattern host subset (some port) (some a2)) ∧
    (a1.ServiceRegistry ≠ ProviderID.Kubernetes → a2.ServiceRegistry ≠ ProviderID.Kubernetes →
      BuildStatPrefix pattern host subset (some port) (some a1)
        = BuildStatPrefix pattern host subset (some port) (some a2)) := by
  refine ⟨fun h => ?_, fun h1 h2 => ?_⟩
  · have h' : ¬ Token.text .SERVICE <:+: pattern := h
    rw [buildStatPrefix_passes, buildStatPrefix_passes, replaceAll_of_absent _ _ _ h',
      replaceAll_of_absent _ _ _ h']
  · rw [buildStatPrefix_passes, buildStatPrefix_passes, shortName, shortName, if_neg h1,
      if_neg h2]

/-- Witness of C15: a Kubernetes service and a service of another registry give the same
prefix for a pattern without `%SERVICE%`; two services of the same other registry with
different names give the same prefix for a pattern with `%SERVICE%`. -/
theorem C15_attributes_only_through_service_witness :
    (BuildStatPrefix "%SERVICE_FQDN%_%SERVICE_PORT%".toList "my-host".toList "v1".toList
        (some ⟨"http".toList, 8080⟩) (some ⟨ProviderID.Kubernetes, "svc".toList, "ns".toList⟩)
      = BuildStatPrefix "%SERVICE_FQDN%_%SERVICE_PORT%".toList "my-host".toList "v1".toList
        (some ⟨"http".toList, 8080⟩) (some ⟨ProviderID.Other 1, "other".toList, []⟩)) ∧
    (BuildStatPrefix "%SERVICE%_%SERVICE_PORT%".toList "my-host".toList "v1".toList
        (some ⟨"http".toList, 8080⟩) (some ⟨ProviderID.Other 1, "svc".toList, "ns".toList⟩)
      = BuildStatPrefix "%SERVICE%_%SERVICE_PORT%".toList "my-host".toList "v1".toList
        (some ⟨"http".toList, 8080⟩) (some ⟨ProviderID.Other 1, "other".toList, []⟩)) :=
  ⟨(C15_attributes_only_through_service "%SERVICE_FQDN%_%SERVICE_PORT%".toList
      "my-host".toList "v1".toList ⟨"http".toList, 8080⟩
      ⟨ProviderID.Kubernetes, "svc".toList, "ns".toList⟩
      ⟨ProviderID.Other 1, "other".toList, []⟩).1 (by decide),
    (C15_attributes_only_through_service "%SERVICE%_%SERVICE_PORT%".toList
      "my-host".toList "v1".toList ⟨"http".toList, 8080⟩
      ⟨ProviderID.Other 1, "svc".toList, "ns".toList⟩
      ⟨ProviderID.Other 1, "other".toList, []⟩).2 (by decide) (by decide)⟩

/-- C16: `ShortHostname` is the empty string if and only if both the Kubernetes service
name and the string form of the instance host name are empty; with a non-empty service name
the result contains a dot and its length is the length of the name, plus one, plus the
length of the namespace. -/
theorem C16_shortHostname_shape (tm : FilterChainMetadata) :
    (tm.ShortHostname = [] ↔
      tm.KubernetesServiceName = [] ∧ tm.InstanceHostname.String = []) ∧
    (tm.KubernetesServiceName ≠ [] →
      '.' ∈ tm.ShortHostname ∧
      tm.ShortHostname.length
        = tm.KubernetesServiceName.length + 1 + tm.KubernetesServiceNamespace.length) := by
  by_cases h : tm.KubernetesServiceName = []
  · have e : tm.ShortHostname = tm.InstanceHostname.String := by
      rw [FilterChainMetadata.ShortHostname, if_neg (not_not.2 h)]
    refine ⟨?_, fun hne => absurd h hne⟩
    rw [e]
    exact ⟨fun hs => ⟨h, hs⟩, fun hs => hs.2⟩
  · have e : tm.ShortHostname
        = tm.KubernetesServiceName ++ ['.'] ++ tm.KubernetesServiceNamespace := by
      rw [FilterChainMetadata.ShortHostname, if_pos h]; rfl
    refine ⟨?_, fun _ => ?_⟩
    · rw [e]
      constructor
      · intro hs
        simp at hs
      · intro hs
        exact absurd hs.1 h
    · rw [e]
      constructor
      · simp
      · simp only [List.length_append, List.length_cons, List.length_nil]

/-- Witness of C16: name `svcA` with an empty namespace gives `svcA.`, of length 5. -/
theorem C16_shortHostname_shape_witness :
    FilterChainMetadata.ShortHostname ⟨⟨"a.example.com".toList⟩, [], "svcA".toList⟩
      = "svcA.".toList ∧
    '.' ∈ FilterChainMetadata.ShortHostname ⟨⟨"a.example.com".toList⟩, [], "svcA".toList⟩ ∧
    (FilterChainMetadata.ShortHostname ⟨⟨"a.example.com".toList⟩, [], "svcA".toList⟩).length
      = "svcA".toList.length + 1 + ([] : Str).length :=
  ⟨by decide,
    (C16_shortHostname_shape ⟨⟨"a.example.com".toList⟩, [], "svcA".toList⟩).2 (by decide)⟩

end Telemetry
